import Mathlib

/-!
Verification of the Simple_payment_dapp contracts.

Source under verification:
* `src/contracts/token/src/lib.rs` — the Token Ledger (balances, allowances,
  mint/burn/transfer, SEP-41 style).
* `src/contracts/swap/src/lib.rs` — the constant-product liquidity pool
  (add/remove liquidity, swaps, pricing math, integer square root).

Embedding conventions:
* Addresses are `Fin n` for an arbitrary address space size `n`; Soroban
  storage maps with `unwrap_or(0)` defaults become total functions.
* Rust `i128` arithmetic is embedded as `ℤ`.  The contracts' `/` on `i128`
  rounds toward zero, which is `Int.tdiv`; `i128` division panics on a zero
  divisor, which the embedded operations surface as an explicit error.
* A Soroban `panic!` aborts and rolls back the whole invocation, so every
  fallible operation returns `Except`: `.error` means the operation left all
  state (pool and both ledgers) untouched.
* `require_auth()` is the platform's authorization collaborator, out of scope
  per the spec (§1, §5); the embedding models an authorized caller.
* The ledger sequence counter (`env.ledger().sequence()`) is passed to
  `approve` as an explicit argument `seq`.
-/

/-- Failure conditions of the token ledger (each corresponds to a `panic!`
in `src/contracts/token/src/lib.rs`). -/
inductive TokErr where
  | notPositive
  | insufficientBalance
  | insufficientAllowance
  | expirationInPast
  deriving DecidableEq

/-- Failure conditions of the swap pool (each corresponds to a `panic!` in
`src/contracts/swap/src/lib.rs`, or to an aborting nested ledger call, or to
an `i128` division-by-zero panic). -/
inductive PoolErr where
  | notPositive
  | poolEmpty
  | slippage
  | insufficientSharesMinted
  | insufficientShares
  | negativeSqrt
  | divByZero
  | token (e : TokErr)
  deriving DecidableEq

/-- Propagate a ledger failure out of a nested inter-contract call. -/
def liftT {α : Type} : Except TokErr α → Except PoolErr α
  | .ok a => .ok a
  | .error e => .error (.token e)

/-- Update one cell of a two-key map (owner, spender). -/
def upd2 {n : ℕ} {α : Type} (f : Fin n → Fin n → α) (i j : Fin n) (v : α) :
    Fin n → Fin n → α :=
  Function.update f i (Function.update (f i) j v)

/-- State of one Token Ledger instance (`TokenContract` storage):
`Admin`, `TotalSupply`, `Balance(a)`, `Allowance(from, spender)` (value), and
the allowance expiration window kept by `set_ttl` (modelled as the stored
expiration ledger number). Metadata (name, symbol, decimals) plays no role in
any claim and is omitted. -/
structure TokenState (n : ℕ) where
  admin : Fin n
  totalSupply : ℤ
  balances : Fin n → ℤ
  allowances : Fin n → Fin n → ℤ
  allowExp : Fin n → Fin n → ℕ

/-- `initialize(admin, decimal, name, symbol)`: fresh ledger, supply 0, all
maps empty (reads default to 0). -/
def TokenState.initial {n : ℕ} (a : Fin n) : TokenState n :=
  { admin := a
    totalSupply := 0
    balances := fun _ => 0
    allowances := fun _ _ => 0
    allowExp := fun _ _ => 0 }

/-- `mint(to, amount)` (admin-only; authorization external). -/
def TokenState.mint {n : ℕ} (s : TokenState n) (dst : Fin n) (amount : ℤ) :
    Except TokErr (TokenState n) :=
  if amount ≤ 0 then .error .notPositive
  else .ok { s with
    balances := Function.update s.balances dst (s.balances dst + amount)
    totalSupply := s.totalSupply + amount }

/-- `burn(from, amount)` (caller is `from`; authorization external). -/
def TokenState.burn {n : ℕ} (s : TokenState n) (frm : Fin n) (amount : ℤ) :
    Except TokErr (TokenState n) :=
  if amount ≤ 0 then .error .notPositive
  else if s.balances frm < amount then .error .insufficientBalance
  else .ok { s with
    balances := Function.update s.balances frm (s.balances frm - amount)
    totalSupply := s.totalSupply - amount }

/-- `burn_from(spender, from, amount)`: allowance check and decrement, then
balance check and decrement, then supply decrement.  Note: the source has no
positivity check on `amount` here. -/
def TokenState.burn_from {n : ℕ} (s : TokenState n) (spender frm : Fin n)
    (amount : ℤ) : Except TokErr (TokenState n) :=
  if s.allowances frm spender < amount then .error .insufficientAllowance
  else if s.balances frm < amount then .error .insufficientBalance
  else .ok { s with
    allowances := upd2 s.allowances frm spender (s.allowances frm spender - amount)
    balances := Function.update s.balances frm (s.balances frm - amount)
    totalSupply := s.totalSupply - amount }

/-- `transfer(from, to, amount)`.  The source writes `Balance(from)` and then
reads `Balance(to)` from storage, so a self-transfer reads the decremented
value; the nested `Function.update` reproduces that. -/
def TokenState.transfer {n : ℕ} (s : TokenState n) (frm dst : Fin n)
    (amount : ℤ) : Except TokErr (TokenState n) :=
  if amount ≤ 0 then .error .notPositive
  else if s.balances frm < amount then .error .insufficientBalance
  else
    let b1 := Function.update s.balances frm (s.balances frm - amount)
    .ok { s with balances := Function.update b1 dst (b1 dst + amount) }

/-- `transfer_from(spender, from, to, amount)`: allowance check and decrement,
then balance check, then the two balance writes.  Note: the source has no
positivity check on `amount` here. -/
def TokenState.transfer_from {n : ℕ} (s : TokenState n) (spender frm dst : Fin n)
    (amount : ℤ) : Except TokErr (TokenState n) :=
  if s.allowances frm spender < amount then .error .insufficientAllowance
  else if s.balances frm < amount then .error .insufficientBalance
  else
    let b1 := Function.update s.balances frm (s.balances frm - amount)
    .ok { s with
      allowances := upd2 s.allowances frm spender (s.allowances frm spender - amount)
      balances := Function.update b1 dst (b1 dst + amount) }

/-- `approve(from, spender, amount, expiration_ledger)` at current ledger
sequence `seq`: panics when `expiration_ledger < seq`, otherwise overwrites
the allowance value and its expiration window (the source stores a TTL of
`expiration_ledger - seq`; given `seq` this carries the same information as
the expiration ledger number stored here). -/
def TokenState.approve {n : ℕ} (s : TokenState n) (frm spender : Fin n)
    (amount : ℤ) (expiration_ledger seq : ℕ) : Except TokErr (TokenState n) :=
  if expiration_ledger < seq then .error .expirationInPast
  else .ok { s with
    allowances := upd2 s.allowances frm spender amount
    allowExp := upd2 s.allowExp frm spender expiration_ledger }

/-- `set_admin(new_admin)` (current-admin-only; authorization external). -/
def TokenState.set_admin {n : ℕ} (s : TokenState n) (new_admin : Fin n) :
    Except TokErr (TokenState n) :=
  .ok { s with admin := new_admin }

/-- Sum of all balances of a ledger. -/
def sumBal {n : ℕ} (s : TokenState n) : ℤ := ∑ a, s.balances a

/-- The ledger conservation invariant: `totalSupply == Σ balances`. -/
def tokInv {n : ℕ} (s : TokenState n) : Prop := s.totalSupply = sumBal s

/-- State of the swap pool (`SwapContract` storage): `ReserveA`, `ReserveB`,
`TotalShares`, `Fee`, `Shares(provider)`.  The admin and the two token
contract addresses are configuration held by `World` below. -/
structure PoolState (n : ℕ) where
  reserveA : ℤ
  reserveB : ℤ
  totalShares : ℤ
  feeBps : ℕ
  shares : Fin n → ℤ

/-- Pool `initialize(admin, token_a, token_b, fee_bps)`: reserves and total
shares start at 0. -/
def PoolState.initial {n : ℕ} (fee_bps : ℕ) : PoolState n :=
  { reserveA := 0
    reserveB := 0
    totalShares := 0
    feeBps := fee_bps
    shares := fun _ => 0 }

/-- `get_amount_out(amount_in, reserve_in, reserve_out, fee_bps)`:

    fee_factor = 10000 - fee_bps
    amount_in_with_fee = amount_in * fee_factor
    (amount_in_with_fee * reserve_out) / (reserve_in * 10000 + amount_in_with_fee)

The source computes `10000 - fee_bps` in `u32` and casts to `i128`; on the
valid fee domain `fee_bps ≤ 10000` (spec §3) this agrees with the `ℤ`
subtraction used here.  `i128` division rounds toward zero (`Int.tdiv`);
the source would panic on a zero denominator, which the callers of this pure
function surface as an explicit `.divByZero` guard. -/
def get_amount_out (amount_in reserve_in reserve_out : ℤ) (fee_bps : ℕ) : ℤ :=
  let fee_factor : ℤ := 10000 - (fee_bps : ℤ)
  let amount_in_with_fee := amount_in * fee_factor
  let numerator := amount_in_with_fee * reserve_out
  let denominator := reserve_in * 10000 + amount_in_with_fee
  Int.tdiv numerator denominator

/-- The `while z < x { x = z; z = (y / z + z) / 2 }` loop of `sqrt`, with an
explicit iteration bound.  Each iteration strictly decreases `x` (the loop
runs only while `z < x` and sets `x = z`) and on the reachable domain `x`
stays at least 1, so `fuel` iterations suffice whenever `x ≤ fuel`; the
theorems below establish this and never rely on the fuel-exhaustion case. -/
def sqrtGo (y : ℤ) : ℕ → ℤ → ℤ → ℤ
  | 0, x, _ => x
  | fuel + 1, x, z =>
      if z < x then sqrtGo y fuel z (Int.tdiv (Int.tdiv y z + z) 2) else x

/-- `sqrt(y)` (integer square root by Newton's method): panics on `y < 0`,
returns 0 for `y == 0`, otherwise iterates from `x = y`, `z = (y + 1) / 2`. -/
def sqrtI (y : ℤ) : Except PoolErr ℤ :=
  if y < 0 then .error .negativeSqrt
  else if y = 0 then .ok 0
  else .ok (sqrtGo y y.toNat y (Int.tdiv (y + 1) 2))

/-- The whole system: the pool plus the two token ledgers it was configured
with, and the pool contract's own address (`env.current_contract_address()`)
as seen by the token ledgers. -/
structure World (n : ℕ) where
  poolAddr : Fin n
  pool : PoolState n
  tokA : TokenState n
  tokB : TokenState n

/-- `add_liquidity(provider, amount_a, amount_b, min_shares)`:
share computation (geometric mean bootstrap / proportional minimum), the
`min_shares` guard, the two `transfer_from` pulls, then the reserve, total
share and provider share updates.  The `.divByZero` guards reflect the `i128`
division panic when `total_shares != 0` but a reserve is zero (the source
divides by `reserve_a` first, then by `reserve_b`). -/
def World.add_liquidity {n : ℕ} (w : World n) (provider : Fin n)
    (amount_a amount_b min_shares : ℤ) : Except PoolErr (World n × ℤ) :=
  if amount_a ≤ 0 ∨ amount_b ≤ 0 then .error .notPositive else do
  let shares ←
    if w.pool.totalShares = 0 then
      sqrtI (amount_a * amount_b)
    else if w.pool.reserveA = 0 then .error .divByZero
    else if w.pool.reserveB = 0 then .error .divByZero
    else
      let shares_a := Int.tdiv (amount_a * w.pool.totalShares) w.pool.reserveA
      let shares_b := Int.tdiv (amount_b * w.pool.totalShares) w.pool.reserveB
      .ok (min shares_a shares_b)
  if shares < min_shares then .error .insufficientSharesMinted else do
  let tokA' ← liftT (w.tokA.transfer_from w.poolAddr provider w.poolAddr amount_a)
  let tokB' ← liftT (w.tokB.transfer_from w.poolAddr provider w.poolAddr amount_b)
  .ok ({ w with
          tokA := tokA'
          tokB := tokB'
          pool := { w.pool with
            reserveA := w.pool.reserveA + amount_a
            reserveB := w.pool.reserveB + amount_b
            totalShares := w.pool.totalShares + shares
            shares := Function.update w.pool.shares provider
              (w.pool.shares provider + shares) } },
        shares)

/-- `remove_liquidity(provider, shares, min_amount_a, min_amount_b)`:
share checks, proportional amounts (truncating division by `total_shares`,
whose zero case is the `i128` division panic), slippage guard, state update,
then the two `transfer` payouts. -/
def World.remove_liquidity {n : ℕ} (w : World n) (provider : Fin n)
    (shares min_amount_a min_amount_b : ℤ) :
    Except PoolErr (World n × (ℤ × ℤ)) :=
  if shares ≤ 0 then .error .notPositive
  else if w.pool.shares provider < shares then .error .insufficientShares
  else if w.pool.totalShares = 0 then .error .divByZero
  else
    let amount_a := Int.tdiv (shares * w.pool.reserveA) w.pool.totalShares
    let amount_b := Int.tdiv (shares * w.pool.reserveB) w.pool.totalShares
    if amount_a < min_amount_a ∨ amount_b < min_amount_b then .error .slippage
    else do
      let tokA' ← liftT (w.tokA.transfer w.poolAddr provider amount_a)
      let tokB' ← liftT (w.tokB.transfer w.poolAddr provider amount_b)
      .ok ({ w with
              tokA := tokA'
              tokB := tokB'
              pool := { w.pool with
                reserveA := w.pool.reserveA - amount_a
                reserveB := w.pool.reserveB - amount_b
                totalShares := w.pool.totalShares - shares
                shares := Function.update w.pool.shares provider
                  (w.pool.shares provider - shares) } },
            (amount_a, amount_b))

/-- `swap_a_for_b(user, amount_in, min_amount_out)`: positivity and
`PoolEmpty` guards, pricing, slippage guard, `transfer_from` pull of token A,
reserve update (`reserveA += amount_in`, `reserveB -= amount_out`), `transfer`
payout of token B. -/
def World.swap_a_for_b {n : ℕ} (w : World n) (user : Fin n)
    (amount_in min_amount_out : ℤ) : Except PoolErr (World n × ℤ) :=
  if amount_in ≤ 0 then .error .notPositive
  else if w.pool.reserveA = 0 ∨ w.pool.reserveB = 0 then .error .poolEmpty
  else if w.pool.reserveA * 10000 + amount_in * (10000 - (w.pool.feeBps : ℤ)) = 0 then
    .error .divByZero
  else
    let amount_out := get_amount_out amount_in w.pool.reserveA w.pool.reserveB w.pool.feeBps
    if amount_out < min_amount_out then .error .slippage
    else do
      let tokA' ← liftT (w.tokA.transfer_from w.poolAddr user w.poolAddr amount_in)
      let tokB' ← liftT (w.tokB.transfer w.poolAddr user amount_out)
      .ok ({ w with
              tokA := tokA'
              tokB := tokB'
              pool := { w.pool with
                reserveA := w.pool.reserveA + amount_in
                reserveB := w.pool.reserveB - amount_out } },
            amount_out)

/-- `swap_b_for_a(user, amount_in, min_amount_out)`: symmetric to
`swap_a_for_b` with the reserve roles swapped. -/
def World.swap_b_for_a {n : ℕ} (w : World n) (user : Fin n)
    (amount_in min_amount_out : ℤ) : Except PoolErr (World n × ℤ) :=
  if amount_in ≤ 0 then .error .notPositive
  else if w.pool.reserveA = 0 ∨ w.pool.reserveB = 0 then .error .poolEmpty
  else if w.pool.reserveB * 10000 + amount_in * (10000 - (w.pool.feeBps : ℤ)) = 0 then
    .error .divByZero
  else
    let amount_out := get_amount_out amount_in w.pool.reserveB w.pool.reserveA w.pool.feeBps
    if amount_out < min_amount_out then .error .slippage
    else do
      let tokB' ← liftT (w.tokB.transfer_from w.poolAddr user w.poolAddr amount_in)
      let tokA' ← liftT (w.tokA.transfer w.poolAddr user amount_out)
      .ok ({ w with
              tokA := tokA'
              tokB := tokB'
              pool := { w.pool with
                reserveB := w.pool.reserveB + amount_in
                reserveA := w.pool.reserveA - amount_out } },
            amount_out)

/-- A well-formed pool state, per the data model of spec §3: reserves, total
shares and provider shares are non-negative, total shares are the sum of the
provider shares, and an empty pool (no shares) holds no reserves.  These hold
in every state reachable from `PoolState.initial` by the pool operations. -/
def PoolState.wf {n : ℕ} (p : PoolState n) : Prop :=
  0 ≤ p.reserveA ∧ 0 ≤ p.reserveB ∧ 0 ≤ p.totalShares ∧
    (p.totalShares = 0 → p.reserveA = 0 ∧ p.reserveB = 0) ∧
    ∀ a, 0 ≤ p.shares a

/-- A concrete funded ledger used by closed evaluation theorems: address 0 is
the pool, address 1 a user holding funds with an allowance toward the pool. -/
def exToken : TokenState 2 :=
  { admin := 0
    totalSupply := 2000000
    balances := fun _ => 1000000
    allowances := fun frm sp => if frm = 1 ∧ sp = 0 then 1000000 else 0
    allowExp := fun _ _ => 0 }

/-- A concrete world whose pool holds liquidity (reserves 10000/10000, fee
30 bps). -/
def exWorldLiq : World 2 :=
  { poolAddr := 0
    pool :=
      { reserveA := 10000
        reserveB := 10000
        totalShares := 141
        feeBps := 30
        shares := fun i => if i = 1 then 141 else 0 }
    tokA := exToken
    tokB := exToken }

/-- A concrete world whose pool is freshly initialized (zero reserves). -/
def exWorldEmpty : World 2 :=
  { poolAddr := 0
    pool := PoolState.initial 30
    tokA := exToken
    tokB := exToken }

/-- Recover the ledger state of a successful token operation (default on
failure). -/
def okTokD {n : ℕ} (dflt : TokenState n) : Except TokErr (TokenState n) → TokenState n
  | .ok t => t
  | .error _ => dflt

/-- Shares returned by a successful `add_liquidity` (-1 on failure). -/
def sharesOf {n : ℕ} : Except PoolErr (World n × ℤ) → ℤ
  | .ok r => r.2
  | .error _ => -1

/-- Amounts returned by a successful `remove_liquidity` (-1 on failure). -/
def amountsOf {n : ℕ} : Except PoolErr (World n × (ℤ × ℤ)) → ℤ × ℤ
  | .ok r => r.2
  | .error _ => (-1, -1)

/-- The post-state of a successful `add_liquidity` or swap (default on
failure). -/
def okWorldD {n : ℕ} (dflt : World n) : Except PoolErr (World n × ℤ) → World n
  | .ok r => r.1
  | .error _ => dflt

/-- The reserve product `reserveA * reserveB` of the post-state of a
successful swap (default on failure). -/
def prodRes {n : ℕ} (dflt : ℤ) : Except PoolErr (World n × ℤ) → ℤ
  | .ok r => r.1.pool.reserveA * r.1.pool.reserveB
  | .error _ => dflt

/-- The error of a failed pool operation, if any. -/
def errOf {ε α : Type} : Except ε α → Option ε
  | .error e => some e
  | .ok _ => none

theorem sum_update_eq {n : ℕ} (f : Fin n → ℤ) (i : Fin n) (v : ℤ) :
    (∑ a, Function.update f i v a) = (∑ a, f a) + (v - f i) := by
  rw [Finset.sum_update_of_mem (Finset.mem_univ i), Finset.sdiff_singleton_eq_erase,
    Finset.sum_erase_eq_sub (Finset.mem_univ i)]
  ring

/-- C2: starting from any ledger state whose total supply equals the sum of
all balances, every successful ledger operation (initialize, mint, burn,
burn_from, transfer, transfer_from, approve, set_admin) again yields a state
whose total supply equals the sum of all balances. -/
theorem c2_supply_conservation {n : ℕ} (s : TokenState n) (hInv : tokInv s) :
    (∀ a : Fin n, tokInv (TokenState.initial a)) ∧
    (∀ dst amount s', TokenState.mint s dst amount = .ok s' → tokInv s') ∧
    (∀ frm amount s', TokenState.burn s frm amount = .ok s' → tokInv s') ∧
    (∀ sp frm amount s', TokenState.burn_from s sp frm amount = .ok s' → tokInv s') ∧
    (∀ frm dst amount s', TokenState.transfer s frm dst amount = .ok s' → tokInv s') ∧
    (∀ sp frm dst amount s',
      TokenState.transfer_from s sp frm dst amount = .ok s' → tokInv s') ∧
    (∀ frm sp amount expi seq s',
      TokenState.approve s frm sp amount expi seq = .ok s' → tokInv s') ∧
    (∀ a s', TokenState.set_admin s a = .ok s' → tokInv s') := by
  refine ⟨?_, ?_, ?_, ?_, ?_, ?_, ?_, ?_⟩
  · intro a
    simp [tokInv, sumBal, TokenState.initial]
  · intro dst amount s' h
    simp only [TokenState.mint] at h
    split_ifs at h
    simp only [Except.ok.injEq] at h
    subst h
    simp only [tokInv, sumBal] at hInv ⊢
    rw [sum_update_eq]
    linarith
  · intro frm amount s' h
    simp only [TokenState.burn] at h
    split_ifs at h
    simp only [Except.ok.injEq] at h
    subst h
    simp only [tokInv, sumBal] at hInv ⊢
    rw [sum_update_eq]
    linarith
  · intro sp frm amount s' h
    simp only [TokenState.burn_from] at h
    split_ifs at h
    simp only [Except.ok.injEq] at h
    subst h
    simp only [tokInv, sumBal] at hInv ⊢
    rw [sum_update_eq]
    linarith
  · intro frm dst amount s' h
    simp only [TokenState.transfer] at h
    split_ifs at h
    simp only [Except.ok.injEq] at h
    subst h
    simp only [tokInv, sumBal] at hInv ⊢
    rw [sum_update_eq, sum_update_eq]
    simp [Function.update_apply]
    linarith
  · intro sp frm dst amount s' h
    simp only [TokenState.transfer_from] at h
    split_ifs at h
    simp only [Except.ok.injEq] at h
    subst h
    simp only [tokInv, sumBal] at hInv ⊢
    rw [sum_update_eq, sum_update_eq]
    simp [Function.update_apply]
    linarith
  · intro frm sp amount expi seq s' h
    simp only [TokenState.approve] at h
    split_ifs at h
    simp only [Except.ok.injEq] at h
    subst h
    exact hInv
  · intro a s' h
    simp only [TokenState.set_admin, Except.ok.injEq] at h
    subst h
    exact hInv

/-- Witness for C2: the conservation theorem applied to a concrete mint on a
concrete ledger satisfying the invariant. -/
theorem c2_supply_conservation_witness :
    tokInv (okTokD exToken (TokenState.mint exToken 0 5)) := by
  rcases hEq : TokenState.mint exToken 0 5 with e | t
  · have hok : errOf (TokenState.mint exToken 0 5) = none := by decide
    rw [hEq] at hok
    simp [errOf] at hok
  · simpa [okTokD] using (c2_supply_conservation exToken (by unfold tokInv; decide)).2.1 0 5 t hEq

/-- C3 (exhibit of the code bug): from the freshly initialized ledger (all
balances 0, all allowances 0), `transfer_from(spender := 0, from := 0,
to := 1, amount := -5)` succeeds — the allowance and balance checks pass
because `0 < -5` is false — and leaves `balances[1] = -5`, a negative
balance, contradicting the spec's invariant `balances[*] >= 0`. -/
theorem c3_negative_balance_exhibit :
    errOf (TokenState.transfer_from (TokenState.initial (0 : Fin 2)) 0 0 1 (-5)) = none ∧
    (okTokD (TokenState.initial 0)
        (TokenState.transfer_from (TokenState.initial (0 : Fin 2)) 0 0 1 (-5))).balances 1
      = -5 := by
  decide

/-- C10: `transfer_from` and `burn_from` have no positivity check on
`amount`, unlike `transfer`, `burn` and `mint` which reject `amount <= 0`.
With a non-negative stored allowance and balance, both calls succeed for any
`amount <= 0`, and a strictly negative amount increases the allowance and
`balances[from]` while decreasing `balances[to]` (`transfer_from`) or
increasing `totalSupply` (`burn_from`). -/
theorem c10_no_positivity_check {n : ℕ} (s : TokenState n) (sp frm dst : Fin n)
    (amount : ℤ) (hal : 0 ≤ s.allowances frm sp) (hbal : 0 ≤ s.balances frm)
    (hamt : amount ≤ 0) :
    TokenState.transfer s frm dst amount = .error .notPositive ∧
    TokenState.burn s frm amount = .error .notPositive ∧
    TokenState.mint s dst amount = .error .notPositive ∧
    Except.isOk (TokenState.transfer_from s sp frm dst amount) = true ∧
    Except.isOk (TokenState.burn_from s sp frm amount) = true ∧
    (amount < 0 → ∀ s', TokenState.transfer_from s sp frm dst amount = .ok s' →
      s.allowances frm sp < s'.allowances frm sp ∧
      (frm ≠ dst → s.balances frm < s'.balances frm ∧
        s'.balances dst < s.balances dst)) ∧
    (amount < 0 → ∀ s', TokenState.burn_from s sp frm amount = .ok s' →
      s.allowances frm sp < s'.allowances frm sp ∧
      s.balances frm < s'.balances frm ∧
      s.totalSupply < s'.totalSupply) := by
  have h1 : ¬ s.allowances frm sp < amount := not_lt.mpr (le_trans hamt hal)
  have h2 : ¬ s.balances frm < amount := not_lt.mpr (le_trans hamt hbal)
  refine ⟨?_, ?_, ?_, ?_, ?_, ?_, ?_⟩
  · simp [TokenState.transfer, hamt]
  · simp [TokenState.burn, hamt]
  · simp [TokenState.mint, hamt]
  · simp [TokenState.transfer_from, h1, h2, Except.isOk, Except.toBool]
  · simp [TokenState.burn_from, h1, h2, Except.isOk, Except.toBool]
  · intro hneg s' h
    simp only [TokenState.transfer_from, if_neg h1, if_neg h2, Except.ok.injEq] at h
    subst h
    refine ⟨?_, ?_⟩
    · simp only [upd2, Function.update_same]
      linarith
    · intro hne
      constructor
      · simp only [Function.update_apply, if_neg hne, if_pos rfl]
        simp [hne]
        linarith
      · simp only [Function.update_apply, if_pos rfl]
        have : ¬ dst = frm := fun hc => hne hc.symm
        simp [this]
        linarith
  · intro hneg s' h
    simp only [TokenState.burn_from, if_neg h1, if_neg h2, Except.ok.injEq] at h
    subst h
    refine ⟨?_, ?_, ?_⟩
    · simp only [upd2, Function.update_same]
      linarith
    · simp only [Function.update_same]
      linarith
    · simp only []
      linarith

/-- Witness for C10: the theorem applied at a concrete ledger and a concrete
non-positive amount. -/
theorem c10_no_positivity_check_witness :
    TokenState.transfer exToken 1 0 (-3) = .error TokErr.notPositive := by
  exact (c10_no_positivity_check exToken 0 1 0 (-3) (by decide) (by decide)
    (by decide)).1

/-- C8 counterexample: the source checks `expiration_ledger <
env.ledger().sequence()`, so an `approve` whose expiration equals the current
sequence — not strictly in the future — succeeds, contrary to the claim that
it fails. -/
theorem c8_approve_boundary_counterexample :
    errOf (TokenState.approve exToken 1 0 7 5 5) = none := by
  decide

/-- C8 (amended): `approve` fails exactly when `expiration_ledger` is
strictly less than the current ledger sequence (equality succeeds); a failed
approve aborts with no state change; a successful approve overwrites the
allowance value and its expiration window and touches nothing else. -/
theorem c8_approve_expiration {n : ℕ} (s : TokenState n) (frm sp : Fin n)
    (amount : ℤ) (expi seq : ℕ) :
    (expi < seq →
      TokenState.approve s frm sp amount expi seq = .error .expirationInPast) ∧
    (seq ≤ expi →
      Except.isOk (TokenState.approve s frm sp amount expi seq) = true) ∧
    (∀ s', TokenState.approve s frm sp amount expi seq = .ok s' →
      s'.allowances frm sp = amount ∧
      s'.allowExp frm sp = expi ∧
      s'.balances = s.balances ∧
      s'.totalSupply = s.totalSupply ∧
      ∀ a b : Fin n, ¬(a = frm ∧ b = sp) →
        s'.allowances a b = s.allowances a b ∧ s'.allowExp a b = s.allowExp a b) := by
  refine ⟨?_, ?_, ?_⟩
  · intro h
    simp [TokenState.approve, h]
  · intro h
    simp [TokenState.approve, not_lt.mpr h, Except.isOk, Except.toBool]
  · intro s' h
    simp only [TokenState.approve] at h
    split_ifs at h
    simp only [Except.ok.injEq] at h
    subst h
    refine ⟨by simp [upd2, Function.update_same], by simp [upd2, Function.update_same],
      rfl, rfl, ?_⟩
    intro a b hab
    by_cases haf : a = frm
    · subst haf
      have hbs : ¬ b = sp := fun hb => hab ⟨rfl, hb⟩
      simp [upd2, Function.update_apply, hbs]
    · simp [upd2, Function.update_apply, haf]

/-- Witness for C8 (amended): the theorem applied at a concrete approve whose
expiration lies strictly in the future. -/
theorem c8_approve_expiration_witness :
    Except.isOk (TokenState.approve exToken 1 0 7 10 5) = true ∧
    (okTokD exToken (TokenState.approve exToken 1 0 7 10 5)).allowances 1 0 = 7 := by
  have thm := c8_approve_expiration exToken 1 0 7 10 5
  refine ⟨thm.2.1 (by decide), ?_⟩
  rcases hEq : TokenState.approve exToken 1 0 7 10 5 with e | t
  · have hok : errOf (TokenState.approve exToken 1 0 7 10 5) = none := by decide
    rw [hEq] at hok
    simp [errOf] at hok
  · simpa [okTokD] using (thm.2.2 t hEq).1

/-- C4: on the valid fee domain (`fee_bps` at most 10000, spec §3),
`get_amount_out` is exactly
`(amountIn * (10000 - feeBps) * reserveOut) tdiv (reserveIn * 10000 + amountIn * (10000 - feeBps))`
with division truncating toward zero, and in particular
`getAmountOut(1000, 10000, 10000, 30) = 906`. -/
theorem c4_get_amount_out_formula (amount_in reserve_in reserve_out : ℤ)
    (fee_bps : ℕ) (hfee : fee_bps ≤ 10000) :
    get_amount_out amount_in reserve_in reserve_out fee_bps =
      Int.tdiv (amount_in * (10000 - (fee_bps : ℤ)) * reserve_out)
        (reserve_in * 10000 + amount_in * (10000 - (fee_bps : ℤ))) ∧
    get_amount_out 1000 10000 10000 30 = 906 := by
  exact ⟨rfl, by decide⟩

/-- Witness for C4: the formula theorem applied at the spec's literal
input. -/
theorem c4_get_amount_out_formula_witness :
    get_amount_out 1000 10000 10000 30 = 906 :=
  (c4_get_amount_out_formula 1000 10000 10000 30 (by decide)).2

theorem amm_product_le (aIn rIn rOut : ℤ) (fee : ℕ) (haIn : 0 < aIn)
    (hrIn : 0 < rIn) (hrOut : 0 ≤ rOut) (hfee : fee ≤ 10000) :
    rIn * rOut ≤ (rIn + aIn) * (rOut - get_amount_out aIn rIn rOut fee) := by
  have hout : get_amount_out aIn rIn rOut fee =
      Int.tdiv (aIn * (10000 - (fee : ℤ)) * rOut)
        (rIn * 10000 + aIn * (10000 - (fee : ℤ))) := rfl
  have hfz : (0 : ℤ) ≤ (fee : ℤ) := Int.natCast_nonneg fee
  have hfle : (fee : ℤ) ≤ 10000 := by exact_mod_cast hfee
  set F : ℤ := 10000 - (fee : ℤ) with hF
  have hF0 : 0 ≤ F := by omega
  have hFle : F ≤ 10000 := by omega
  set N : ℤ := aIn * F * rOut with hN
  set D : ℤ := rIn * 10000 + aIn * F with hD
  have hN0 : 0 ≤ N := by
    rw [hN]
    exact mul_nonneg (mul_nonneg haIn.le hF0) hrOut
  have hD0 : 0 < D := by
    rw [hD]
    have h1 : 0 ≤ aIn * F := mul_nonneg haIn.le hF0
    nlinarith
  have htd : Int.tdiv N D = N / D := Int.tdiv_eq_ediv hN0 hD0.le
  have hq0 : 0 ≤ N / D := Int.ediv_nonneg hN0 hD0.le
  have hqD : (N / D) * D ≤ N := Int.ediv_mul_le N hD0.ne'
  have haux : N * (rIn + aIn) ≤ aIn * rOut * D := by
    rw [hN, hD]
    have hprod : 0 ≤ aIn * rOut * rIn * (10000 - F) :=
      mul_nonneg (mul_nonneg (mul_nonneg haIn.le hrOut) hrIn.le) (by omega)
    nlinarith [hprod]
  have hstep : (N / D) * (rIn + aIn) ≤ aIn * rOut := by
    have h2 := mul_le_mul_of_nonneg_right hqD (show (0 : ℤ) ≤ rIn + aIn by linarith)
    have h1 : (N / D) * (rIn + aIn) * D ≤ N * (rIn + aIn) := by
      ring_nf at h2 ⊢
      exact h2
    exact le_of_mul_le_mul_right (le_trans h1 haux) hD0
  rw [hout, htd]
  nlinarith [hstep]

/-- C1: a successful swap (either direction) on a pool with positive
reserves, positive input and fee in (0, 10000] never decreases the reserve
product `reserveA * reserveB`; the embedded swaps update the reserves to
`reserveIn + amountIn` and `reserveOut - get_amount_out(...)` exactly as the
claim states. -/
theorem c1_swap_product_nondecreasing {n : ℕ} (w : World n) (user : Fin n)
    (amount_in min_amount_out : ℤ) (haIn : 0 < amount_in)
    (hrA : 0 < w.pool.reserveA) (hrB : 0 < w.pool.reserveB)
    (hfee0 : 0 < w.pool.feeBps) (hfee : w.pool.feeBps ≤ 10000) :
    (∀ r, World.swap_a_for_b w user amount_in min_amount_out = .ok r →
      w.pool.reserveA * w.pool.reserveB ≤ r.1.pool.reserveA * r.1.pool.reserveB) ∧
    (∀ r, World.swap_b_for_a w user amount_in min_amount_out = .ok r →
      w.pool.reserveA * w.pool.reserveB ≤ r.1.pool.reserveA * r.1.pool.reserveB) := by
  constructor
  · intro r h
    simp only [World.swap_a_for_b] at h
    split_ifs at h
    rcases hA : w.tokA.transfer_from w.poolAddr user w.poolAddr amount_in with eA | tA
    · rw [hA] at h
      simp [liftT, bind, Except.bind] at h
    · rw [hA] at h
      simp only [liftT, bind, Except.bind] at h
      rcases hB : w.tokB.transfer w.poolAddr user
          (get_amount_out amount_in w.pool.reserveA w.pool.reserveB w.pool.feeBps)
          with eB | tB
      · rw [hB] at h
        simp [liftT, Except.bind] at h
      · rw [hB] at h
        simp only [liftT, Except.bind, Except.ok.injEq] at h
        subst h
        exact amm_product_le amount_in w.pool.reserveA w.pool.reserveB w.pool.feeBps
          haIn hrA hrB.le hfee
  · intro r h
    simp only [World.swap_b_for_a] at h
    split_ifs at h
    rcases hB : w.tokB.transfer_from w.poolAddr user w.poolAddr amount_in with eB | tB
    · rw [hB] at h
      simp [liftT, bind, Except.bind] at h
    · rw [hB] at h
      simp only [liftT, bind, Except.bind] at h
      rcases hA : w.tokA.transfer w.poolAddr user
          (get_amount_out amount_in w.pool.reserveB w.pool.reserveA w.pool.feeBps)
          with eA | tA
      · rw [hA] at h
        simp [liftT, Except.bind] at h
      · rw [hA] at h
        simp only [liftT, Except.bind, Except.ok.injEq] at h
        subst h
        have hkey := amm_product_le amount_in w.pool.reserveB w.pool.reserveA
          w.pool.feeBps haIn hrB hrA.le hfee
        dsimp only
        nlinarith [hkey]

/-- Witness for C1: the theorem applied to a concrete successful swap on the
funded example world. -/
theorem c1_swap_product_nondecreasing_witness :
    exWorldLiq.pool.reserveA * exWorldLiq.pool.reserveB ≤
      prodRes 0 (World.swap_a_for_b exWorldLiq 1 1000 0) := by
  rcases hEq : World.swap_a_for_b exWorldLiq 1 1000 0 with e | r
  · have hok : errOf (World.swap_a_for_b exWorldLiq 1 1000 0) = none := by decide
    rw [hEq] at hok
    simp [errOf] at hok
  · have hle := (c1_swap_product_nondecreasing exWorldLiq 1 1000 0 (by decide)
      (by decide) (by decide) (by decide) (by decide)).1 r hEq
    simpa [prodRes] using hle

/-- C9 counterexample: on a zero-reserve pool the claim asserts every
`amountIn` fails with PoolEmpty, but the source checks `amount_in <= 0`
first, so `amountIn = 0` fails with the positivity panic instead of
PoolEmpty. -/
theorem c9_pool_empty_counterexample :
    errOf (World.swap_a_for_b exWorldEmpty 1 0 0) = some PoolErr.notPositive ∧
    PoolErr.notPositive ≠ PoolErr.poolEmpty := by
  decide

/-- C9 (amended): on a pool with a zero reserve, a swap in either direction
with positive `amountIn` fails with PoolEmpty, and with non-positive
`amountIn` fails with the positivity error; in every case the operation
returns an error, so by the all-or-nothing transaction semantics (spec §5,
embedded in `Except`) no pool reserve, share, or token balance/allowance is
mutated and no tokens move. -/
theorem c9_swap_pool_empty {n : ℕ} (w : World n) (user : Fin n)
    (amount_in min_amount_out : ℤ)
    (hz : w.pool.reserveA = 0 ∨ w.pool.reserveB = 0) :
    (0 < amount_in →
      World.swap_a_for_b w user amount_in min_amount_out = .error .poolEmpty ∧
      World.swap_b_for_a w user amount_in min_amount_out = .error .poolEmpty) ∧
    (amount_in ≤ 0 →
      World.swap_a_for_b w user amount_in min_amount_out = .error .notPositive ∧
      World.swap_b_for_a w user amount_in min_amount_out = .error .notPositive) := by
  constructor
  · intro h
    constructor
    · unfold World.swap_a_for_b
      rw [if_neg (not_le.mpr h), if_pos hz]
    · unfold World.swap_b_for_a
      rw [if_neg (not_le.mpr h), if_pos hz]
  · intro h
    constructor
    · unfold World.swap_a_for_b
      rw [if_pos h]
    · unfold World.swap_b_for_a
      rw [if_pos h]

/-- Witness for C9 (amended): the theorem applied to a concrete positive
swap attempt on the empty example pool. -/
theorem c9_swap_pool_empty_witness :
    World.swap_a_for_b exWorldEmpty 1 5 0 = .error PoolErr.poolEmpty ∧
    World.swap_b_for_a exWorldEmpty 1 5 0 = .error PoolErr.poolEmpty :=
  (c9_swap_pool_empty exWorldEmpty 1 5 0 (by decide)).1 (by decide)

theorem newton_ge_sqrt (Y X : ℕ) (hX : 0 < X) : Nat.sqrt Y ≤ (Y / X + X) / 2 := by
  set s := Nat.sqrt Y with hs
  have hsY : s * s ≤ Y := Nat.sqrt_le Y
  rcases le_or_lt X (2 * s) with hc | hc
  · have h2 : (2 * s - X) * X ≤ s * s := by
      zify [hc]
      nlinarith [sq_nonneg ((s : ℤ) - (X : ℤ))]
    have h3 : 2 * s - X ≤ Y / X := (Nat.le_div_iff_mul_le hX).mpr (le_trans h2 hsY)
    have h4 : s * 2 ≤ Y / X + X :=
      calc s * 2 = 2 * s - X + X := by omega
      _ ≤ Y / X + X := add_le_add_right h3 X
    exact (Nat.le_div_iff_mul_le (by norm_num)).mpr h4
  · have h4 : s * 2 ≤ Y / X + X :=
      le_trans (by omega) (Nat.le_add_left X (Y / X))
    exact (Nat.le_div_iff_mul_le (by norm_num)).mpr h4

theorem newton_exit (Y X : ℕ) (hX : 0 < X) (h : X ≤ (Y / X + X) / 2) :
    X * X ≤ Y := by
  have h1 : X * 2 ≤ Y / X + X := (Nat.le_div_iff_mul_le (by norm_num)).mp h
  have h2 : X ≤ Y / X := by omega
  exact (Nat.le_div_iff_mul_le hX).mp h2

theorem nstep_cast (Y X : ℕ) :
    Int.tdiv (Int.tdiv (Y : ℤ) (X : ℤ) + (X : ℤ)) 2 = ((Y / X + X) / 2 : ℕ) := by
  rw [← Int.ofNat_tdiv Y X, ← Nat.cast_add]
  exact_mod_cast (Int.ofNat_tdiv (Y / X + X) 2).symm

theorem sqrtGo_eq (Y : ℕ) (hY : 1 ≤ Y) :
    ∀ (fuel X : ℕ), Nat.sqrt Y ≤ X → X ≤ fuel →
      sqrtGo (Y : ℤ) fuel (X : ℤ)
          (Int.tdiv (Int.tdiv (Y : ℤ) (X : ℤ) + (X : ℤ)) 2)
        = (Nat.sqrt Y : ℤ) := by
  intro fuel
  induction fuel with
  | zero =>
    intro X hsX hXf
    have hs1 : 0 < Nat.sqrt Y := Nat.sqrt_pos.mpr hY
    omega
  | succ fuel ih =>
    intro X hsX hXf
    have hs1 : 0 < Nat.sqrt Y := Nat.sqrt_pos.mpr hY
    have hX0 : 0 < X := lt_of_lt_of_le hs1 hsX
    rw [nstep_cast]
    set Z := (Y / X + X) / 2 with hZ
    simp only [sqrtGo]
    by_cases hzx : Z < X
    · rw [if_pos (by exact_mod_cast hzx)]
      have hsZ : Nat.sqrt Y ≤ Z := by
        rw [hZ]
        exact newton_ge_sqrt Y X hX0
      exact ih Z hsZ (by omega)
    · rw [if_neg (by exact_mod_cast hzx)]
      have hXZ : X ≤ Z := not_lt.mp hzx
      have hXX : X * X ≤ Y := newton_exit Y X hX0 (hZ ▸ hXZ)
      have hXs : X ≤ Nat.sqrt Y := Nat.le_sqrt.mpr hXX
      have : X = Nat.sqrt Y := le_antisymm hXs hsX
      exact_mod_cast congrArg (fun m : ℕ => (m : ℤ)) this

theorem sqrtI_eq (y : ℤ) (hy : 0 < y) :
    sqrtI y = .ok ((Nat.sqrt y.toNat : ℕ) : ℤ) := by
  set Y := y.toNat with hYdef
  have hyY : ((Y : ℕ) : ℤ) = y := Int.toNat_of_nonneg hy.le
  have hY1 : 1 ≤ Y := by omega
  unfold sqrtI
  rw [if_neg (by omega), if_neg (by omega)]
  congr 1
  rw [← hyY]
  have hz : Int.tdiv ((Y : ℤ) + 1) 2
      = Int.tdiv (Int.tdiv (Y : ℤ) (Y : ℤ) + (Y : ℤ)) 2 := by
    rw [Int.tdiv_self (by exact_mod_cast Nat.one_le_iff_ne_zero.mp hY1 : ((Y : ℕ) : ℤ) ≠ 0),
      add_comm 1 ((Y : ℕ) : ℤ)]
  rw [hz]
  exact sqrtGo_eq Y hY1 Y Y (Nat.sqrt_le_self Y) le_rfl

/-- C5: `sqrt` fails with the negative-input panic for every `y < 0`, returns
0 for `y = 0`, and for every `y > 0` the Newton iteration terminates and
returns the floor of the true square root (`r ≥ 0` with `r² ≤ y < (r+1)²`);
in particular `sqrt 0 = 0`, `sqrt 1 = 1`, `sqrt 16 = 4`, `sqrt 15 = 3`. -/
theorem c5_sqrt_newton :
    (∀ y : ℤ, y < 0 → sqrtI y = .error .negativeSqrt) ∧
    sqrtI 0 = .ok 0 ∧
    (∀ y : ℤ, 0 < y → ∃ r : ℤ, sqrtI y = .ok r ∧ 0 ≤ r ∧ r * r ≤ y ∧
      y < (r + 1) * (r + 1)) ∧
    sqrtI 1 = .ok 1 ∧ sqrtI 16 = .ok 4 ∧ sqrtI 15 = .ok 3 := by
  refine ⟨?_, rfl, ?_, rfl, rfl, rfl⟩
  · intro y hy
    unfold sqrtI
    rw [if_pos hy]
  · intro y hy
    have h2 : ((y.toNat : ℕ) : ℤ) = y := Int.toNat_of_nonneg hy.le
    refine ⟨((Nat.sqrt y.toNat : ℕ) : ℤ), sqrtI_eq y hy, Int.natCast_nonneg _, ?_, ?_⟩
    · have h := Nat.sqrt_le y.toNat
      have h3 : ((Nat.sqrt y.toNat * Nat.sqrt y.toNat : ℕ) : ℤ) ≤ ((y.toNat : ℕ) : ℤ) := by
        exact_mod_cast h
      push_cast at h3
      rw [h2] at h3
      exact h3
    · have h := Nat.lt_succ_sqrt y.toNat
      have h3 : ((y.toNat : ℕ) : ℤ)
          < ((Nat.sqrt y.toNat + 1) * (Nat.sqrt y.toNat + 1) : ℕ) := by
        exact_mod_cast h
      push_cast at h3
      rw [h2] at h3
      exact h3

/-- Witness for C5: the theorem applied at a concrete negative input. -/
theorem c5_sqrt_newton_witness :
    sqrtI (-3) = .error PoolErr.negativeSqrt :=
  c5_sqrt_newton.1 (-3) (by decide)

theorem add_liquidity_ok {n : ℕ} {w : World n} {provider : Fin n}
    {amount_a amount_b min_shares : ℤ} {r : World n × ℤ}
    (h : World.add_liquidity w provider amount_a amount_b min_shares = .ok r) :
    0 < amount_a ∧ 0 < amount_b ∧
    (w.pool.totalShares = 0 → sqrtI (amount_a * amount_b) = .ok r.2) ∧
    (w.pool.totalShares ≠ 0 →
      w.pool.reserveA ≠ 0 ∧ w.pool.reserveB ≠ 0 ∧
      r.2 = min (Int.tdiv (amount_a * w.pool.totalShares) w.pool.reserveA)
        (Int.tdiv (amount_b * w.pool.totalShares) w.pool.reserveB)) ∧
    r.1.pool.reserveA = w.pool.reserveA + amount_a ∧
    r.1.pool.reserveB = w.pool.reserveB + amount_b ∧
    r.1.pool.totalShares = w.pool.totalShares + r.2 ∧
    r.1.pool.shares provider = w.pool.shares provider + r.2 := by
  simp only [World.add_liquidity] at h
  split_ifs at h with hpos hT hA0 hB0
  · -- bootstrap branch: totalShares = 0
    push_neg at hpos
    rcases hS : sqrtI (amount_a * amount_b) with e | sv
    · rw [hS] at h
      simp [bind, Except.bind] at h
    · rw [hS] at h
      simp only [bind, Except.bind] at h
      split_ifs at h
      rcases hA : w.tokA.transfer_from w.poolAddr provider w.poolAddr amount_a
          with eA | tA
      · rw [hA] at h
        simp [liftT, Except.bind] at h
      · rw [hA] at h
        simp only [liftT, Except.bind] at h
        rcases hB : w.tokB.transfer_from w.poolAddr provider w.poolAddr amount_b
            with eB | tB
        · rw [hB] at h
          simp [liftT, Except.bind] at h
        · rw [hB] at h
          simp only [liftT, Except.bind, Except.ok.injEq] at h
          subst h
          refine ⟨hpos.1, hpos.2, fun _ => ?_, fun hT' => absurd hT hT',
            rfl, rfl, rfl, ?_⟩
          · simp [hS]
          · simp [Function.update_same]
  · simp [bind, Except.bind] at h
  · simp [bind, Except.bind] at h
  · -- proportional branch: totalShares ≠ 0, both reserves nonzero
    push_neg at hpos
    simp only [bind, Except.bind] at h
    split_ifs at h
    rcases hA : w.tokA.transfer_from w.poolAddr provider w.poolAddr amount_a
        with eA | tA
    · rw [hA] at h
      simp [liftT, Except.bind] at h
    · rw [hA] at h
      simp only [liftT, Except.bind] at h
      rcases hB : w.tokB.transfer_from w.poolAddr provider w.poolAddr amount_b
          with eB | tB
      · rw [hB] at h
        simp [liftT, Except.bind] at h
      · rw [hB] at h
        simp only [liftT, Except.bind, Except.ok.injEq] at h
        subst h
        refine ⟨hpos.1, hpos.2, fun hT' => absurd hT' hT, fun _ => ⟨hA0, hB0, rfl⟩,
          rfl, rfl, rfl, ?_⟩
        simp [Function.update_same]

theorem remove_liquidity_ok {n : ℕ} {w : World n} {provider : Fin n}
    {shares min_amount_a min_amount_b : ℤ} {r : World n × (ℤ × ℤ)}
    (h : World.remove_liquidity w provider shares min_amount_a min_amount_b = .ok r) :
    0 < shares ∧ shares ≤ w.pool.shares provider ∧ w.pool.totalShares ≠ 0 ∧
    r.2.1 = Int.tdiv (shares * w.pool.reserveA) w.pool.totalShares ∧
    r.2.2 = Int.tdiv (shares * w.pool.reserveB) w.pool.totalShares := by
  simp only [World.remove_liquidity] at h
  split_ifs at h with h1 h2 h3 h4
  rcases hA : w.tokA.transfer w.poolAddr provider
      (Int.tdiv (shares * w.pool.reserveA) w.pool.totalShares) with eA | tA
  · rw [hA] at h
    simp [liftT, bind, Except.bind] at h
  · rw [hA] at h
    simp only [liftT, bind, Except.bind] at h
    rcases hB : w.tokB.transfer w.poolAddr provider
        (Int.tdiv (shares * w.pool.reserveB) w.pool.totalShares) with eB | tB
    · rw [hB] at h
      simp [liftT, Except.bind] at h
    · rw [hB] at h
      simp only [liftT, Except.bind, Except.ok.injEq] at h
      subst h
      exact ⟨not_le.mp h1, not_lt.mp h2, h3, rfl, rfl⟩

/-- C6: a successful `add_liquidity` mints exactly
`integerSqrt(amountA * amountB)` shares when `totalShares = 0`, and otherwise
`min(amountA * totalShares / reserveA, amountB * totalShares / reserveB)`
with truncating division; in particular the initial
`add_liquidity(100, 400, 0)` on the empty example pool mints 200 shares. -/
theorem c6_add_liquidity_shares {n : ℕ} :
    (∀ (w : World n) (provider : Fin n) (amount_a amount_b min_shares : ℤ)
      (r : World n × ℤ),
      World.add_liquidity w provider amount_a amount_b min_shares = .ok r →
      (w.pool.totalShares = 0 → sqrtI (amount_a * amount_b) = .ok r.2) ∧
      (w.pool.totalShares ≠ 0 →
        r.2 = min (Int.tdiv (amount_a * w.pool.totalShares) w.pool.reserveA)
          (Int.tdiv (amount_b * w.pool.totalShares) w.pool.reserveB))) ∧
    sharesOf (World.add_liquidity exWorldEmpty 1 100 400 0) = 200 := by
  constructor
  · intro w provider amount_a amount_b min_shares r h
    have E := add_liquidity_ok h
    exact ⟨E.2.2.1, fun hT => (E.2.2.2.1 hT).2.2⟩
  · decide

/-- Witness for C6: the theorem applied to the concrete bootstrap deposit. -/
theorem c6_add_liquidity_shares_witness :
    sqrtI (100 * 400) = .ok (sharesOf (World.add_liquidity exWorldEmpty 1 100 400 0)) := by
  rcases hEq : World.add_liquidity exWorldEmpty 1 100 400 0 with e | r
  · have hok : errOf (World.add_liquidity exWorldEmpty 1 100 400 0) = none := by decide
    rw [hEq] at hok
    simp [errOf] at hok
  · have hT : exWorldEmpty.pool.totalShares = 0 := by decide
    have hsq := ((c6_add_liquidity_shares (n := 2)).1 exWorldEmpty 1 100 400 0 r hEq).1 hT
    simpa [sharesOf] using hsq

/-- C7: for a well-formed pool state (spec §3 data model), a successful
`add_liquidity` minting `s > 0` shares followed immediately by a successful
`remove_liquidity` of all `s` shares by the same provider pays out at most
the deposited amounts: the round trip never favors the provider. -/
theorem c7_add_remove_round_trip {n : ℕ} (w : World n) (provider : Fin n)
    (amount_a amount_b min_shares : ℤ) (r1 : World n × ℤ)
    (r2 : World n × (ℤ × ℤ)) (hwf : w.pool.wf)
    (h1 : World.add_liquidity w provider amount_a amount_b min_shares = .ok r1)
    (hs : 0 < r1.2)
    (h2 : World.remove_liquidity r1.1 provider r1.2 0 0 = .ok r2) :
    r2.2.1 ≤ amount_a ∧ r2.2.2 ≤ amount_b := by
  have hwf' := hwf
  unfold PoolState.wf at hwf'
  obtain ⟨hrA0, hrB0, hT0, hshape, hshare⟩ := hwf'
  have E1 := add_liquidity_ok h1
  obtain ⟨haA, haB, hboot, hprop, heA, heB, heT, hesh⟩ := E1
  have E2 := remove_liquidity_ok h2
  obtain ⟨hs2, hsle, hTne, hamA, hamB⟩ := E2
  rw [heA] at hamA
  rw [heB] at hamB
  rw [heT] at hamA hamB
  set s := r1.2 with hsdef
  by_cases hT : w.pool.totalShares = 0
  · -- bootstrap: a well-formed pool with no shares has zero reserves
    obtain ⟨hA0, hB0⟩ := hshape hT
    rw [hT, hA0] at hamA
    rw [hT, hB0] at hamB
    simp only [zero_add] at hamA hamB
    constructor
    · rw [hamA, Int.tdiv_eq_ediv (by positivity) hs.le,
        Int.mul_ediv_cancel_left amount_a hs.ne']
    · rw [hamB, Int.tdiv_eq_ediv (by positivity) hs.le,
        Int.mul_ediv_cancel_left amount_b hs.ne']
  · obtain ⟨hAne, hBne, hmin⟩ := hprop hT
    have hrA : 0 < w.pool.reserveA := lt_of_le_of_ne hrA0 (Ne.symm hAne)
    have hrB : 0 < w.pool.reserveB := lt_of_le_of_ne hrB0 (Ne.symm hBne)
    have hT1 : 0 < w.pool.totalShares := lt_of_le_of_ne hT0 (Ne.symm hT)
    have hsa : s ≤ Int.tdiv (amount_a * w.pool.totalShares) w.pool.reserveA := by
      rw [hmin]
      exact min_le_left _ _
    have hsb : s ≤ Int.tdiv (amount_b * w.pool.totalShares) w.pool.reserveB := by
      rw [hmin]
      exact min_le_right _ _
    rw [Int.tdiv_eq_ediv (by positivity) hrA.le] at hsa
    rw [Int.tdiv_eq_ediv (by positivity) hrB.le] at hsb
    have key1 : s * w.pool.reserveA ≤ amount_a * w.pool.totalShares :=
      (Int.le_ediv_iff_mul_le hrA).mp hsa
    have key2 : s * w.pool.reserveB ≤ amount_b * w.pool.totalShares :=
      (Int.le_ediv_iff_mul_le hrB).mp hsb
    have hTs : 0 < w.pool.totalShares + s := by linarith
    constructor
    · rw [hamA, Int.tdiv_eq_ediv (by positivity) hTs.le]
      calc (s * (w.pool.reserveA + amount_a)) / (w.pool.totalShares + s)
          ≤ (amount_a * (w.pool.totalShares + s)) / (w.pool.totalShares + s) := by
            apply Int.ediv_le_ediv hTs
            nlinarith [key1]
        _ = amount_a := Int.mul_ediv_cancel amount_a hTs.ne'
    · rw [hamB, Int.tdiv_eq_ediv (by positivity) hTs.le]
      calc (s * (w.pool.reserveB + amount_b)) / (w.pool.totalShares + s)
          ≤ (amount_b * (w.pool.totalShares + s)) / (w.pool.totalShares + s) := by
            apply Int.ediv_le_ediv hTs
            nlinarith [key2]
        _ = amount_b := Int.mul_ediv_cancel amount_b hTs.ne'

/-- Witness for C7: the theorem applied to the concrete round trip
`add_liquidity(100, 400, 0)` then `remove_liquidity` of all minted shares on
the empty example pool. -/
theorem c7_add_remove_round_trip_witness :
    (amountsOf (World.remove_liquidity
        (okWorldD exWorldEmpty (World.add_liquidity exWorldEmpty 1 100 400 0)) 1
        (sharesOf (World.add_liquidity exWorldEmpty 1 100 400 0)) 0 0)).1 ≤ 100 ∧
    (amountsOf (World.remove_liquidity
        (okWorldD exWorldEmpty (World.add_liquidity exWorldEmpty 1 100 400 0)) 1
        (sharesOf (World.add_liquidity exWorldEmpty 1 100 400 0)) 0 0)).2 ≤ 400 := by
  rcases hEq1 : World.add_liquidity exWorldEmpty 1 100 400 0 with e | r1
  · have hok : errOf (World.add_liquidity exWorldEmpty 1 100 400 0) = none := by decide
    rw [hEq1] at hok
    simp [errOf] at hok
  · simp only [okWorldD, sharesOf]
    have hs : 0 < r1.2 := by
      have h200 : sharesOf (World.add_liquidity exWorldEmpty 1 100 400 0) = 200 := by
        decide
      rw [hEq1] at h200
      simp only [sharesOf] at h200
      omega
    rcases hEq2 : World.remove_liquidity r1.1 1 r1.2 0 0 with e2 | r2
    · have hok2 : errOf (World.remove_liquidity
          (okWorldD exWorldEmpty (World.add_liquidity exWorldEmpty 1 100 400 0)) 1
          (sharesOf (World.add_liquidity exWorldEmpty 1 100 400 0)) 0 0) = none := by
        decide
      rw [hEq1] at hok2
      simp only [okWorldD, sharesOf] at hok2
      rw [hEq2] at hok2
      simp [errOf] at hok2
    · simp only [amountsOf]
      exact c7_add_remove_round_trip exWorldEmpty 1 100 400 0 r1 r2
        (by unfold PoolState.wf; decide) hEq1 hs hEq2
